import Mathlib

/-!
Verification of the ngcccbase deterministic address manager
(`ngcccbase/deterministic.py`) and UTXO fetcher (`ngcccbase/utxo_fetcher.py`)
via a shallow embedding in Lean.

Python dictionaries, lists and objects are modelled as Lean structures and
lists; in-place mutation becomes explicit state passing.  Cryptographic
primitives (HMAC-SHA256 from Python's `hmac`/`hashlib`, secp256k1 scalar
multiplication and base58 address encoding from `pycoin`) are external
libraries to the repository; they are modelled as fixed pure stand-in
functions, which is faithful to the only contract the code relies on:
each one is a deterministic function of its inputs.
-/

/-- Modelled from the spec: the colormap (`coloredcoinlib`, not under `src/`)
resolves a color descriptor string to a color id. -/
structure ColorMap where
  resolve : String → Nat

/-- Modelled from the spec: `coloredcoinlib.ColorSet` (not under `src/`).
A serializable list of color descriptors, together with the set of color
ids the colormap resolves them to; equality is semantic (same set of
color ids), not structural identity. -/
structure ColorSet where
  colorDescList : List String
  colorIdSet : Finset Nat
deriving DecidableEq

/-- `ColorSet(colormap, color_desc_list)`: the id set is computed from the
descriptor list at construction time. -/
def ColorSet.make (cm : ColorMap) (descs : List String) : ColorSet :=
  { colorDescList := descs, colorIdSet := (descs.map cm.resolve).toFinset }

/-- `ColorSet.get_data`: the list of descriptor strings. -/
def ColorSet.get_data (cs : ColorSet) : List String := cs.colorDescList

/-- Modelled from the spec: semantic equality of color sets — same set of
color ids. -/
def ColorSet.equals (a b : ColorSet) : Bool := decide (a.colorIdSet = b.colorIdSet)

/-- Modelled from the spec: the intersection test — two color sets intersect
when they share at least one color id. -/
def ColorSet.intersects (a b : ColorSet) : Bool :=
  decide (a.colorIdSet ∩ b.colorIdSet ≠ ∅)

/-- A color set is well-formed (w.r.t. a colormap) when it is exactly what
`ColorSet.make` produces from its own descriptor list, i.e. its id set was
computed from its descriptors by that colormap.  Every color set the real
code builds arises this way. -/
def ColorSet.WF (cm : ColorMap) (cs : ColorSet) : Prop :=
  cs = ColorSet.make cm cs.colorDescList

instance (cm : ColorMap) (cs : ColorSet) : Decidable (ColorSet.WF cm cs) := by
  unfold ColorSet.WF; infer_instance

/-- Stand-in for a 256-bit cryptographic hash core (SHA-256): an arbitrary
fixed pure function from strings to 256-bit numbers. -/
def stringHash (s : String) : Nat :=
  s.data.foldl (fun a c => (a * 131 + c.toNat + 1) % 2 ^ 256) 7

/-- Hex character for a digit below 16 (as in Python's `hexdigest`). -/
def hexChar (n : Nat) : Char :=
  if n < 10 then Char.ofNat (48 + n) else Char.ofNat (87 + n)

/-- The 64-character lowercase hex digest of a 256-bit number, as returned by
`hashlib.sha256(...).hexdigest()`. -/
def hexDigest (n : Nat) : String :=
  String.mk ((List.range 64).map (fun i => hexChar (n / 16 ^ (63 - i) % 16)))

/-- Insert a string into a sorted list of strings (ascending). -/
def insertSorted (s : String) : List String → List String
  | [] => [s]
  | t :: r => if s ≤ t then s :: t :: r else t :: insertSorted s r

/-- Sort a list of strings, as Python's `sorted` does for the canonical
descriptor list. -/
def sortStrings (l : List String) : List String := l.foldr insertSorted []

/-- Modelled from the spec: `ColorSet.get_hash_string` (not under `src/`) —
"a stable hash string computed from a color set's canonical descriptor":
the hex digest of a 256-bit hash of the sorted descriptor list.  The hash
core is a stand-in; the 64-hex-character digest shape is the faithful part. -/
def ColorSet.get_hash_string (cs : ColorSet) : String :=
  hexDigest (stringHash (String.intercalate "," (sortStrings cs.get_data)))

/-! ## Key derivation (DeterministicAddressRecord) -/

/-- Stand-in for `hmac.new(master_key, message, hashlib.sha256).digest()`
interpreted as a 256-bit value: a fixed pure function of (key, message). -/
def hmac_sha256 (key msg : String) : Nat :=
  stringHash (toString key.length ++ ":" ++ key ++ "|" ++ msg)

/-- `pycoin.encoding.from_bytes_32`: the digest interpreted as a 256-bit
big-endian integer.  Our stand-in digest already is that integer. -/
def from_bytes_32 (digest : Nat) : Nat := digest

/-- Stand-in for a point on secp256k1. -/
structure ECPoint where
  x : Nat
  y : Nat
deriving DecidableEq

/-- Stand-in for `BasePoint * rawPrivKey` (secp256k1 scalar multiplication):
a fixed pure function of the scalar. -/
def basePointMul (k : Nat) : ECPoint :=
  { x := k % 2 ^ 256, y := (k * k + 7) % 2 ^ 256 }

/-- Modelled from the spec: `AddressRecord.__init__` (`address.py`, not under
`src/`) stores the network version byte: testnet or mainnet. -/
def addressVersion (testnet : Bool) : Nat := if testnet then 0x6f else 0x00

/-- Stand-in for `pycoin.encoding.public_pair_to_bitcoin_address`: a fixed
pure function of the public pair, compression flag and version byte. -/
def public_pair_to_bitcoin_address (p : ECPoint) (compressed : Bool)
    (version : Nat) : String :=
  "1" ++ toString version ++ ":" ++
    hexDigest (stringHash (toString p.x ++ "," ++ toString p.y ++
      (if compressed then "C" else "U")))

/-- The scope tag used in the HMAC message of
`DeterministicAddressRecord.__init__`: the fixed genesis marker when the
color set's descriptor list is empty, else the color set's hash string. -/
def scopeTag (cs : ColorSet) : String :=
  if cs.get_data.length = 0 then "genesis block" else cs.get_hash_string

/-- `DeterministicAddressRecord`: `hmacDigest` is the digest the `self.hmac`
object computes; the three `Cache` fields are the `_rawPrivKey`,
`_publicPoint` and `_address` memoization slots (`none` = Python `None`). -/
structure DeterministicAddressRecord where
  color_set : ColorSet
  testnet : Bool
  index : Nat
  hmacDigest : Nat
  rawPrivKeyCache : Option Nat
  publicPointCache : Option ECPoint
  addressCache : Option String
deriving DecidableEq

/-- `DeterministicAddressRecord.__init__(master_key=…, color_set=…, index=…,
testnet=…)`: computes the HMAC over `"%s|%s" % (color_string, index)` and
leaves all three memoization slots empty. -/
def DeterministicAddressRecord.make (master_key : String) (color_set : ColorSet)
    (index : Nat) (testnet : Bool) : DeterministicAddressRecord :=
  { color_set := color_set, testnet := testnet, index := index,
    hmacDigest := hmac_sha256 master_key (scopeTag color_set ++ "|" ++ toString index),
    rawPrivKeyCache := none, publicPointCache := none, addressCache := none }

/-- The value the `rawPrivKey` property computes when its cache is empty. -/
def eagerPrivKey (r : DeterministicAddressRecord) : Nat :=
  from_bytes_32 r.hmacDigest

/-- The value the `publicPoint` property computes when its cache is empty. -/
def eagerPoint (r : DeterministicAddressRecord) : ECPoint :=
  basePointMul (eagerPrivKey r)

/-- The value the `address` property computes when its cache is empty. -/
def eagerAddress (r : DeterministicAddressRecord) : String :=
  public_pair_to_bitcoin_address (eagerPoint r) false (addressVersion r.testnet)

/-- The `rawPrivKey` property: returns the cached value, or computes, caches
and returns it.  State passing models the in-place cache write. -/
def DeterministicAddressRecord.rawPrivKey (r : DeterministicAddressRecord) :
    Nat × DeterministicAddressRecord :=
  match r.rawPrivKeyCache with
  | some v => (v, r)
  | none =>
    let v := from_bytes_32 r.hmacDigest
    (v, { r with rawPrivKeyCache := some v })

/-- The `publicPoint` property; forces `rawPrivKey` when its own cache is
empty. -/
def DeterministicAddressRecord.publicPoint (r : DeterministicAddressRecord) :
    ECPoint × DeterministicAddressRecord :=
  match r.publicPointCache with
  | some v => (v, r)
  | none =>
    let p := r.rawPrivKey
    let v := basePointMul p.1
    (v, { p.2 with publicPointCache := some v })

/-- The `address` property; forces `publicPoint` when its own cache is
empty. -/
def DeterministicAddressRecord.address (r : DeterministicAddressRecord) :
    String × DeterministicAddressRecord :=
  match r.addressCache with
  | some v => (v, r)
  | none =>
    let p := r.publicPoint
    let v := public_pair_to_bitcoin_address p.1 false (addressVersion r.testnet)
    (v, { p.2 with addressCache := some v })

/-- One access to a lazily memoized property. -/
inductive FieldAccess
  | priv
  | point
  | addr
deriving DecidableEq

/-- Perform one property access, keeping only the updated record. -/
def applyAccess (r : DeterministicAddressRecord) : FieldAccess → DeterministicAddressRecord
  | FieldAccess.priv => r.rawPrivKey.2
  | FieldAccess.point => r.publicPoint.2
  | FieldAccess.addr => r.address.2

/-- The record `r` is a cache state of the originally constructed record
`r0`: core fields agree and every filled memoization slot holds exactly the
value eagerly computed from `r0`. -/
def CacheGood (r0 r : DeterministicAddressRecord) : Prop :=
  r.hmacDigest = r0.hmacDigest ∧ r.testnet = r0.testnet ∧
  (∀ v, r.rawPrivKeyCache = some v → v = eagerPrivKey r0) ∧
  (∀ v, r.publicPointCache = some v → v = eagerPoint r0) ∧
  (∀ v, r.addressCache = some v → v = eagerAddress r0)

/-! ## Wallet address records and the address manager -/

/-- Modelled from the spec: `LooseAddressRecord` (`address.py`, not under
`src/`) wraps externally supplied key material into the record shape;
it carries no scope/index allocation semantics. -/
structure LooseAddressRecord where
  testnet : Bool
  color_set : ColorSet
  address_data : String
deriving DecidableEq

/-- One parameter dictionary from the `"addresses"` configuration key
(a one-off import descriptor). -/
structure LooseParams where
  address_data : String
  color_set : List String
deriving DecidableEq

/-- An element of `DWalletAddressManager.addresses`. -/
inductive WalletAddress
  | det (r : DeterministicAddressRecord)
  | loose (l : LooseAddressRecord)
deriving DecidableEq

/-- `AddressRecord.get_color_set`. -/
def WalletAddress.get_color_set : WalletAddress → ColorSet
  | WalletAddress.det r => r.color_set
  | WalletAddress.loose l => l.color_set

/-- Stand-in for the address string of an imported loose address (derived
by the external `pycoin` primitives from the supplied key material). -/
def looseAddressString (l : LooseAddressRecord) : String :=
  "L" ++ toString (addressVersion l.testnet) ++ ":" ++
    hexDigest (stringHash l.address_data)

/-- `AddressRecord.get_address`: for a deterministic record this forces the
`address` property (for a fresh record that equals `eagerAddress`). -/
def WalletAddress.get_address : WalletAddress → String
  | WalletAddress.det r => r.address.1
  | WalletAddress.loose l => looseAddressString l

/-- One entry of the persisted `color_set_states` list:
`{"color_set": <descriptor list>, "max_index": <Nat>}`. -/
structure CSState where
  color_set : List String
  max_index : Nat
deriving DecidableEq

/-- The `"dwam"` configuration sub-document. -/
structure DwamParams where
  genesis_color_sets : List (List String)
  color_set_states : List CSState
deriving DecidableEq

/-- The configuration dictionary, restricted to the keys the address manager
uses.  `dw_master_key` is modelled as always present: its one-time random
generation (`os.urandom`) is external nondeterminism; we verify states in
which a master key exists. -/
structure Config where
  dwam : Option DwamParams
  dw_master_key : String
  testnet : Bool
  addresses : List LooseParams
deriving DecidableEq

/-- A configuration for a brand-new wallet: no `"dwam"` document yet, no
one-off imports. -/
def freshConfig (master_key : String) (testnet : Bool) : Config :=
  { dwam := none, dw_master_key := master_key, testnet := testnet, addresses := [] }

/-- `AssetDefinition` (external `asset.py`): for our purposes, a wrapper
whose `get_color_set` returns its color set. -/
structure AssetDefinition where
  color_set : ColorSet

/-- The argument of `get_new_address`: an asset or a color set. -/
inductive AssetOrColorSet
  | asset (a : AssetDefinition)
  | colorSet (cs : ColorSet)

/-- `DWalletAddressManager`: the Python `set` of address records is modelled
as a list in insertion order (the set is identity-keyed, so every `add` of a
newly constructed record grows it). -/
structure DWalletAddressManager where
  config : Config
  testnet : Bool
  colormap : ColorMap
  addresses : List WalletAddress
  master_key : String
  genesis_color_sets : List (List String)
  color_set_states : List CSState

/-- `update_config`: writes `{"genesis_color_sets": …, "color_set_states": …}`
back to the `"dwam"` configuration key. -/
def DWalletAddressManager.update_config (m : DWalletAddressManager) :
    DWalletAddressManager :=
  { m with config := { m.config with
      dwam := some { genesis_color_sets := m.genesis_color_sets,
                     color_set_states := m.color_set_states } } }

/-- The manager state has been persisted: the `"dwam"` key holds the current
counter list and genesis registry. -/
def Persisted (m : DWalletAddressManager) : Prop :=
  m.config.dwam = some { genesis_color_sets := m.genesis_color_sets,
                         color_set_states := m.color_set_states }

/-- The `for` loop of `increment_max_index_for_color_set`: find the first
counter whose color set semantically equals `cs`; bump it and return the new
maximum together with the updated list, or `none` if no counter matches. -/
def incrementLoop (cm : ColorMap) (cs : ColorSet) :
    List CSState → Option (Nat × List CSState)
  | [] => none
  | st :: rest =>
    if (ColorSet.make cm st.color_set).equals cs then
      some (st.max_index + 1, { st with max_index := st.max_index + 1 } :: rest)
    else
      (incrementLoop cm cs rest).map (fun p => (p.1, st :: p.2))

/-- `increment_max_index_for_color_set(color_set)`: bump the matching counter
and return the new maximum, or append a fresh counter at `max_index = 0`
and return `0`. -/
def DWalletAddressManager.increment_max_index_for_color_set
    (m : DWalletAddressManager) (cs : ColorSet) : Nat × DWalletAddressManager :=
  match incrementLoop m.colormap cs m.color_set_states with
  | some p => (p.1, { m with color_set_states := p.2 })
  | none =>
    (0, { m with color_set_states :=
            m.color_set_states ++ [{ color_set := cs.get_data, max_index := 0 }] })

/-- `get_new_address(asset_or_color_set)`: resolve the color set, take the
next index, build the deterministic record, add it to the address space,
persist, and return the new record. -/
def DWalletAddressManager.get_new_address (m : DWalletAddressManager)
    (x : AssetOrColorSet) : WalletAddress × DWalletAddressManager :=
  let cs := match x with
    | AssetOrColorSet.asset a => a.color_set
    | AssetOrColorSet.colorSet c => c
  let p := m.increment_max_index_for_color_set cs
  let na := WalletAddress.det
    (DeterministicAddressRecord.make p.2.master_key cs p.1 p.2.testnet)
  let m2 := { p.2 with addresses := p.2.addresses ++ [na] }
  (na, m2.update_config)

/-- `get_genesis_address(genesis_index)`: pure derivation with the empty
color set at the given index; mutates nothing. -/
def DWalletAddressManager.get_genesis_address (m : DWalletAddressManager)
    (genesis_index : Nat) : DeterministicAddressRecord :=
  DeterministicAddressRecord.make m.master_key (ColorSet.make m.colormap [])
    genesis_index m.testnet

/-- `get_new_genesis_address()`: append a colorless descriptor to the genesis
registry, persist, then materialize the address at that position. -/
def DWalletAddressManager.get_new_genesis_address (m : DWalletAddressManager) :
    WalletAddress × DWalletAddressManager :=
  let index := m.genesis_color_sets.length
  let m1 := { m with genesis_color_sets := m.genesis_color_sets ++ [[]] }
  let m2 := m1.update_config
  let address := WalletAddress.det (m2.get_genesis_address index)
  (address, { m2 with addresses := m2.addresses ++ [address] })

/-- `update_genesis_address(address, color_set)`: the address argument is
identified by its position `ai` in the address list (Python passes the
aliased object itself).  The `assert` on the colorless precondition becomes
an `AssertionError` result; on success the record's color set and the
genesis-registry slot at the record's index are rebound and the state is
persisted. -/
def DWalletAddressManager.update_genesis_address (m : DWalletAddressManager)
    (ai : Nat) (cs : ColorSet) : Except String DWalletAddressManager :=
  match m.addresses.get? ai with
  | some (WalletAddress.det a) =>
    if a.color_set.colorIdSet = (∅ : Finset Nat) then
      Except.ok (DWalletAddressManager.update_config
        { m with
            addresses := m.addresses.set ai (WalletAddress.det { a with color_set := cs }),
            genesis_color_sets := m.genesis_color_sets.set a.index cs.get_data })
    else Except.error "AssertionError"
  | _ => Except.error "invalid address argument"

/-- `get_addresses_for_color_set(color_set)`: every record whose color set
intersects the query. -/
def DWalletAddressManager.get_addresses_for_color_set (m : DWalletAddressManager)
    (cs : ColorSet) : List WalletAddress :=
  m.addresses.filter (fun a => cs.intersects a.get_color_set)

/-- `get_some_address(color_set)`: reuse the first match, else allocate. -/
def DWalletAddressManager.get_some_address (m : DWalletAddressManager)
    (cs : ColorSet) : WalletAddress × DWalletAddressManager :=
  match m.get_addresses_for_color_set cs with
  | [] => m.get_new_address (AssetOrColorSet.colorSet cs)
  | a :: _ => (a, m)

/-- `get_change_address(color_set)`: delegates to `get_some_address`. -/
def DWalletAddressManager.get_change_address (m : DWalletAddressManager)
    (cs : ColorSet) : WalletAddress × DWalletAddressManager :=
  m.get_some_address cs

/-- `get_all_addresses()`. -/
def DWalletAddressManager.get_all_addresses (m : DWalletAddressManager) :
    List WalletAddress :=
  m.addresses

/-- `add_loose_address(addr_params)`: wrap the descriptor into a loose
record and add it.  (The in-place mutation of the parameter dictionary in
the Python code is not observable through the manager and is not
modelled.) -/
def DWalletAddressManager.add_loose_address (m : DWalletAddressManager)
    (p : LooseParams) : LooseAddressRecord × DWalletAddressManager :=
  let address : LooseAddressRecord :=
    { testnet := m.testnet, color_set := ColorSet.make m.colormap p.color_set,
      address_data := p.address_data }
  (address, { m with addresses := m.addresses ++ [WalletAddress.loose address] })

/-- `_import_genesis_addresses`: for every registered genesis descriptor,
derive the colorless record at its position and rebind its in-memory color
set to the registered one (the HMAC was already computed from the genesis
tag, so the address string is unaffected by the rebinding). -/
def DWalletAddressManager.import_genesis_addresses (m : DWalletAddressManager) :
    DWalletAddressManager :=
  { m with addresses := m.addresses ++
      m.genesis_color_sets.enum.map (fun p =>
        WalletAddress.det { m.get_genesis_address p.1 with
                              color_set := ColorSet.make m.colormap p.2 }) }

/-- `_import_specific_color_addresses`: for every counter, derive every index
`0 .. max_index` under the reconstructed color set. -/
def DWalletAddressManager.import_specific_color_addresses
    (m : DWalletAddressManager) : DWalletAddressManager :=
  { m with addresses := m.addresses ++
      (m.color_set_states.map (fun st =>
        (List.range (st.max_index + 1)).map (fun index =>
          WalletAddress.det (DeterministicAddressRecord.make m.master_key
            (ColorSet.make m.colormap st.color_set) index m.testnet)))).flatten }

/-- `_import_one_off_addresses_from_config`. -/
def DWalletAddressManager.import_one_off_addresses_from_config
    (m : DWalletAddressManager) : DWalletAddressManager :=
  m.config.addresses.foldl (fun m p => (m.add_loose_address p).2) m

/-- `DWalletAddressManager.__init__(colormap, config)`: initialize the
`"dwam"` document if absent (`init_new_wallet`), load the master key and the
persisted state, then materialize the address space in source order:
genesis, per-counter, one-off. -/
def DWalletAddressManager.init (cm : ColorMap) (config : Config) :
    DWalletAddressManager :=
  let pc : DwamParams × Config :=
    match config.dwam with
    | none =>
      let p : DwamParams := { genesis_color_sets := [], color_set_states := [] }
      (p, { config with dwam := some p })
    | some p => (p, config)
  let m0 : DWalletAddressManager :=
    { config := pc.2, testnet := pc.2.testnet, colormap := cm, addresses := [],
      master_key := pc.2.dw_master_key,
      genesis_color_sets := pc.1.genesis_color_sets,
      color_set_states := pc.1.color_set_states }
  m0.import_genesis_addresses.import_specific_color_addresses.import_one_off_addresses_from_config

/-- The address records a fresh manager materializes from a counter list. -/
def materializedStates (cm : ColorMap) (master_key : String) (testnet : Bool)
    (states : List CSState) : List WalletAddress :=
  (states.map (fun st =>
    (List.range (st.max_index + 1)).map (fun index =>
      WalletAddress.det (DeterministicAddressRecord.make master_key
        (ColorSet.make cm st.color_set) index testnet)))).flatten

/-- Allocate one address per color set of the list, in order. -/
def allocRun (m : DWalletAddressManager) (css : List ColorSet) :
    DWalletAddressManager :=
  css.foldl (fun m cs => (m.get_new_address (AssetOrColorSet.colorSet cs)).2) m

/-- `n` successive allocations for the same color set. -/
def iterAlloc (m : DWalletAddressManager) (cs : ColorSet) : Nat → DWalletAddressManager
  | 0 => m
  | n + 1 => ((iterAlloc m cs n).get_new_address (AssetOrColorSet.colorSet cs)).2

/-- The record returned by the `n`-th successive allocation (`n ≥ 1`). -/
def nthAllocResult (m : DWalletAddressManager) (cs : ColorSet) (n : Nat) :
    WalletAddress :=
  ((iterAlloc m cs (n - 1)).get_new_address (AssetOrColorSet.colorSet cs)).1

/-- The multiset-as-list of address strings a manager holds. -/
def DWalletAddressManager.addressStrings (m : DWalletAddressManager) : List String :=
  m.addresses.map WalletAddress.get_address

/-- Hypotheses of the restart round-trip: every allocated color set was built
by the colormap (`WF`), and the allocated sets are pairwise distinct up to
semantic equality (semantically equal sets in the run are the same set). -/
def AllocSpec (cm : ColorMap) (css : List ColorSet) : Prop :=
  (∀ cs ∈ css, ColorSet.WF cm cs) ∧
  (∀ cs1 ∈ css, ∀ cs2 ∈ css, cs1.equals cs2 = true → cs1 = cs2)

/-! ## UTXO fetcher (`utxo_fetcher.py`) -/

def DEFAULT_ELECTRUM_SERVER : String := "btc.it-zone.org"

def DEFAULT_ELECTRUM_PORT : Nat := 50001

/-- Modelled from the spec: the per-provider backend clients
(`ngcccbase.services.*`, not under `src/`).  Their constructors only record
configuration — building one performs no network activity — so each is a
pure data constructor here. -/
inductive BackendInterface
  | chromanode (testnet : Bool)
  | helloblock (testnet : Bool)
  | blockchainInfo
  | abe
  | electrum (server : String) (port : Nat)
deriving DecidableEq

/-- The parameter dictionary given to `make_interface`, restricted to the
keys it reads (`None` entries = absent keys). -/
structure FetchParams where
  interface : Option String
  electrum_server : Option String
  electrum_port : Option Nat
deriving DecidableEq

/-- The backend names `make_interface` can construct at all. -/
def knownBackends : List String :=
  ["chromanode", "helloblock", "blockchain.info", "abe_testnet", "electrum"]

/-- The backend names permitted on testnet. -/
def testnetBackends : List String := ["chromanode", "helloblock", "abe_testnet"]

/-- The requested backend name: `params.get('interface', 'chromanode')`. -/
def requestedBackend (params : FetchParams) : String :=
  params.interface.getD "chromanode"

/-- `BaseUTXOFetcher.make_interface(model, params)`: on testnet, names
outside the permitted list are silently replaced by `'chromanode'`; the
final dispatch raises on names it does not know.  The raise is modelled as
an `Except.error`; no state exists yet at that point. -/
def make_interface (testnet : Bool) (params : FetchParams) :
    Except String BackendInterface :=
  let use := requestedBackend params
  let use := if testnet && !(testnetBackends.contains use) then "chromanode" else use
  if use = "chromanode" then Except.ok (BackendInterface.chromanode testnet)
  else if use = "helloblock" then Except.ok (BackendInterface.helloblock testnet)
  else if use = "blockchain.info" then Except.ok BackendInterface.blockchainInfo
  else if use = "abe_testnet" then Except.ok BackendInterface.abe
  else if use = "electrum" then
    Except.ok (BackendInterface.electrum
      (params.electrum_server.getD DEFAULT_ELECTRUM_SERVER)
      (params.electrum_port.getD DEFAULT_ELECTRUM_PORT))
  else Except.error "Unknown service for UTXOFetcher!"

/-- The `while not self.hash_queue.empty()` loop of
`AsyncUTXOFetcher.update()`: drain the queue front-first, feeding each id to
`add_tx_by_hash` and or-accumulating the "got updates" flags.  Returns the
final store, the emptied queue and the aggregate flag. -/
def drainLoop {σ : Type} (add_tx_by_hash : σ → String → σ × Bool) :
    σ → List String → Bool → σ × List String × Bool
  | db, [], any_got_updates => (db, [], any_got_updates)
  | db, txhash :: rest, any_got_updates =>
    let p := add_tx_by_hash db txhash
    drainLoop add_tx_by_hash p.1 rest (any_got_updates || p.2)

/-- Specification view of the drain: the list of per-id "new data" reports,
in first-in-first-out ingestion order. -/
def ingestReports {σ : Type} (add_tx_by_hash : σ → String → σ × Bool) :
    σ → List String → List Bool
  | _, [] => []
  | db, txhash :: rest =>
    let p := add_tx_by_hash db txhash
    p.2 :: ingestReports add_tx_by_hash p.1 rest

/-- Specification view of the final store: the left fold of the ingestions
over the queue in first-in-first-out order. -/
def foldIngest {σ : Type} (add_tx_by_hash : σ → String → σ × Bool)
    (db : σ) (q : List String) : σ :=
  q.foldl (fun db txhash => (add_tx_by_hash db txhash).1) db

/-- `AsyncUTXOFetcher` state, for the single-threaded `update()` path.
`add_tx_by_hash` and `txdb` model `self.model.get_tx_db()` (the external
transaction store, of caller-chosen state type `σ`); `wam` models
`self.model.get_address_manager()`. -/
structure AsyncUTXOFetcher (σ : Type) where
  wam : DWalletAddressManager
  add_tx_by_hash : σ → String → σ × Bool
  txdb : σ
  address_list : List String
  hash_queue : List String
  running : Bool

/-- `AsyncUTXOFetcher.update()`: under the mutex (a no-op for this
single-caller model), refresh the address snapshot from the address
manager; then drain the pending queue into the store; return whether any
ingestion reported new data. -/
def AsyncUTXOFetcher.update {σ : Type} (f : AsyncUTXOFetcher σ) :
    Bool × AsyncUTXOFetcher σ :=
  let f1 := { f with
    address_list := f.wam.get_all_addresses.map WalletAddress.get_address }
  let d := drainLoop f.add_tx_by_hash f1.txdb f1.hash_queue false
  (d.2.2, { f1 with txdb := d.1, hash_queue := d.2.1 })

/-- One pass of the `for address in address_list:` body of `thread_loop`,
with its surrounding `try`: scanning stops at the first address whose scan
raises, the exception is caught by the `except` around the whole `for` and
reported; `running` is the (`is_running()`) flag, checked before each
address.  Returns the addresses actually scanned (the failing one included,
its scan was attempted) and the reported error, if any. -/
def sweepScan (running : Bool) (scan : String → Except String Unit) :
    List String → List String × Option String
  | [] => ([], none)
  | a :: rest =>
    if running then
      match scan a with
      | Except.error e => ([a], some e)
      | Except.ok _ =>
        let p := sweepScan running scan rest
        (a :: p.1, p.2)
    else ([], none)

/-- Whether scanning an address succeeds. -/
def scanOk (scan : String → Except String Unit) (a : String) : Bool :=
  match scan a with
  | Except.ok _ => true
  | Except.error _ => false

/-- Specification view of one sweep: the successful prefix plus the first
failing address, if any. -/
def sweepScannedSpec (scan : String → Except String Unit) (l : List String) :
    List String :=
  l.takeWhile (scanOk scan) ++ (l.dropWhile (scanOk scan)).take 1

/-- Specification view of the caught error: the error of the first failing
address, if any. -/
def sweepReportedSpec (scan : String → Except String Unit) (l : List String) :
    Option String :=
  match (l.dropWhile (scanOk scan)).head? with
  | some a =>
    match scan a with
    | Except.error e => some e
    | Except.ok _ => none
  | none => none

/-- A scan function with one failing address, for the counterexample. -/
def scanBad : String → Except String Unit :=
  fun a => if a = "b" then Except.error "boom" else Except.ok ()

/-! ## Stop-safety transition system

`AsyncUTXOFetcher.start_thread` / `thread_loop` / `stop` form a two-thread
program.  We model it as a labelled transition system: one worker thread
running `thread_loop` (program counter `WLoc`) and one caller thread running
`stop()` (program counter `SLoc`) over the shared state.  Every
`with self.lock:` critical section of the source is one atomic step, which
is exactly the atomicity the mutex provides (every access to `running` and
`address_list` in the source is inside such a section); `stop_evt` is its
own synchronized object.  The timed `stop_evt.wait` may return by signal or
by timeout, so waking is modelled as always enabled. -/

/-- Worker program counter inside `thread_loop`. -/
inductive WLoc
  | start
  | loopHead
  | snap
  | sweep (rem : List String)
  | scanGo (a : String) (rem : List String)
  | waiting
  | done
deriving DecidableEq

/-- `stop()` caller program counter. -/
inductive SLoc
  | idle
  | locked
  | signalled
  | returned
deriving DecidableEq

/-- Shared state of the engine plus both program counters. -/
structure EngineState where
  running : Bool
  stopEvt : Bool
  disconnected : Bool
  address_list : List String
  w : WLoc
  s : SLoc
deriving DecidableEq

/-- Observable step labels: backend scans (`scan_address`, which performs
the `get_utxo` backend call), the backend `disconnect()`, and `stop()`
returning. -/
inductive EngineLabel
  | scan (a : String)
  | disconnect
  | stopReturn
  | internal
deriving DecidableEq

/-- The interleaved small-step relation. -/
inductive EngineStep : EngineState → EngineLabel → EngineState → Prop
  | wStart (st : EngineState) (h : st.w = WLoc.start) :
      EngineStep st EngineLabel.internal { st with running := true, w := WLoc.loopHead }
  | wCheckTrue (st : EngineState) (h : st.w = WLoc.loopHead) (hr : st.running = true) :
      EngineStep st EngineLabel.internal { st with w := WLoc.snap }
  | wCheckFalse (st : EngineState) (h : st.w = WLoc.loopHead) (hr : st.running = false) :
      EngineStep st EngineLabel.internal { st with w := WLoc.done }
  | wSnap (st : EngineState) (h : st.w = WLoc.snap) :
      EngineStep st EngineLabel.internal { st with w := WLoc.sweep st.address_list }
  | wForCheckTrue (st : EngineState) (a : String) (rem : List String)
      (h : st.w = WLoc.sweep (a :: rem)) (hr : st.running = true) :
      EngineStep st EngineLabel.internal { st with w := WLoc.scanGo a rem }
  | wForCheckFalse (st : EngineState) (a : String) (rem : List String)
      (h : st.w = WLoc.sweep (a :: rem)) (hr : st.running = false) :
      EngineStep st EngineLabel.internal { st with w := WLoc.done }
  | wScan (st : EngineState) (a : String) (rem : List String)
      (h : st.w = WLoc.scanGo a rem) :
      EngineStep st (EngineLabel.scan a) { st with w := WLoc.sweep rem }
  | wScanRaise (st : EngineState) (a : String) (rem : List String)
      (h : st.w = WLoc.scanGo a rem) :
      EngineStep st (EngineLabel.scan a) { st with w := WLoc.waiting }
  | wSweepDone (st : EngineState) (h : st.w = WLoc.sweep []) :
      EngineStep st EngineLabel.internal { st with w := WLoc.waiting }
  | wWake (st : EngineState) (h : st.w = WLoc.waiting) :
      EngineStep st EngineLabel.internal { st with w := WLoc.loopHead }
  | sLock (st : EngineState) (h : st.s = SLoc.idle) :
      EngineStep st EngineLabel.disconnect
        { st with disconnected := true, running := false, s := SLoc.locked }
  | sSignal (st : EngineState) (h : st.s = SLoc.locked) :
      EngineStep st EngineLabel.internal { st with stopEvt := true, s := SLoc.signalled }
  | sJoin (st : EngineState) (h : st.s = SLoc.signalled) (hw : st.w = WLoc.done) :
      EngineStep st EngineLabel.stopReturn { st with s := SLoc.returned }

/-- A finite interleaving: the list records each step's label and
post-state. -/
inductive EngineTrace : EngineState → List (EngineLabel × EngineState) → Prop
  | nil (st : EngineState) : EngineTrace st []
  | cons (st : EngineState) (l : EngineLabel) (st' : EngineState)
      (tr : List (EngineLabel × EngineState)) :
      EngineStep st l st' → EngineTrace st' tr → EngineTrace st ((l, st') :: tr)

/-- The state right after `start_thread()` was called and `stop()` is about
to be: the worker is spawned at the top of `thread_loop`, nothing is
disconnected, no flag is set. -/
def engineInit (address_list : List String) : EngineState :=
  { running := false, stopEvt := false, disconnected := false,
    address_list := address_list, w := WLoc.start, s := SLoc.idle }

/-- The inductive invariant of the system. -/
def EngineInv (st : EngineState) : Prop :=
  (st.w = WLoc.done → st.running = false) ∧
  (st.s ≠ SLoc.idle → st.disconnected = true) ∧
  ((st.s = SLoc.signalled ∨ st.s = SLoc.returned) → st.stopEvt = true) ∧
  (st.s = SLoc.returned → st.w = WLoc.done)

/-! ## Run invariant for the restart round-trip -/

/-- Invariant maintained by `allocRun` over a fresh wallet: bookkeeping
fields are unchanged, every state is persisted, every counter descriptor
comes from an allocated color set, and the materialized address space is
(as a multiset) exactly what a fresh manager would rebuild from the
counters. -/
structure RunInv (cm : ColorMap) (master_key : String) (tn : Bool)
    (css : List ColorSet) (m : DWalletAddressManager) : Prop where
  mkey : m.master_key = master_key
  tnet : m.testnet = tn
  cmap : m.colormap = cm
  gen : m.genesis_color_sets = []
  cfgTn : m.config.testnet = tn
  cfgKey : m.config.dw_master_key = master_key
  cfgAddrs : m.config.addresses = []
  pers : Persisted m
  statesSrc : ∀ e ∈ m.color_set_states, ∃ cs, cs ∈ css ∧ e.color_set = cs.colorDescList
  addrsPerm : m.addresses.Perm (materializedStates cm master_key tn m.color_set_states)

/-! ## Concrete objects for the witnesses -/

/-- A concrete colormap for witnesses: resolve a descriptor to its length. -/
def cmEx : ColorMap := { resolve := String.length }

/-- A concrete non-empty, well-formed color set. -/
def csRedEx : ColorSet := ColorSet.make cmEx ["red"]

/-- A concrete empty (colorless) color set. -/
def csEmptyEx : ColorSet := ColorSet.make cmEx []

/-- A concrete manager for a brand-new wallet. -/
def mEx : DWalletAddressManager :=
  DWalletAddressManager.init cmEx (freshConfig "master" false)

/-- A concrete colorless genesis record at index 0. -/
def rGenEx : DeterministicAddressRecord :=
  DeterministicAddressRecord.make "master" (ColorSet.make cmEx []) 0 false

/-- A concrete manager holding one colorless genesis address at index 0. -/
def mGenEx : DWalletAddressManager :=
  { config := freshConfig "master" false, testnet := false, colormap := cmEx,
    addresses := [WalletAddress.det rGenEx], master_key := "master",
    genesis_color_sets := [[]], color_set_states := [] }

/-- A concrete allocation run: three allocations across two distinct color
sets (the first set is allocated twice). -/
def cssEx : List ColorSet :=
  [ColorSet.make cmEx ["r"], ColorSet.make cmEx ["gg"], ColorSet.make cmEx ["r"]]

/-- Parameters requesting an unknown backend. -/
def paramsBogusEx : FetchParams :=
  { interface := some "bogus", electrum_server := none, electrum_port := none }

/-- Parameters requesting `electrum` (valid on mainnet, disallowed on
testnet). -/
def paramsElectrumEx : FetchParams :=
  { interface := some "electrum", electrum_server := none, electrum_port := none }

/-- The final state of the concrete stop trace. -/
def stopStateEx : EngineState :=
  { running := false, stopEvt := true, disconnected := true,
    address_list := [], w := WLoc.done, s := SLoc.returned }

/-- A concrete interleaving: worker starts, `stop()` runs its lock section
and signals, the worker observes `running = false` and exits, `stop()`
joins and returns. -/
def stopTraceEx : List (EngineLabel × EngineState) :=
  [(EngineLabel.internal,
    { running := true, stopEvt := false, disconnected := false,
      address_list := [], w := WLoc.loopHead, s := SLoc.idle }),
   (EngineLabel.disconnect,
    { running := false, stopEvt := false, disconnected := true,
      address_list := [], w := WLoc.loopHead, s := SLoc.locked }),
   (EngineLabel.internal,
    { running := false, stopEvt := true, disconnected := true,
      address_list := [], w := WLoc.loopHead, s := SLoc.signalled }),
   (EngineLabel.internal,
    { running := false, stopEvt := true, disconnected := true,
      address_list := [], w := WLoc.done, s := SLoc.signalled }),
   (EngineLabel.stopReturn, stopStateEx)]

/-! ## Theorems -/

theorem hexDigest_length (n : Nat) : (hexDigest n).length = 64 := by
  simp [hexDigest, String.length]

theorem hexDigest_ne_genesis_marker (n : Nat) : hexDigest n ≠ "genesis block" := by
  intro h
  have h2 := congrArg String.length h
  rw [hexDigest_length] at h2
  exact absurd h2 (by decide)

/-- C7 — Genesis scope isolation: the scope tag is the literal genesis
marker exactly when the color set's descriptor list is empty; otherwise it
is the color set's canonical hash string, and that hash string (a
64-character hex digest) is never equal to the genesis marker. -/
theorem c7_genesis_scope_isolation (cs : ColorSet) :
    (scopeTag cs = "genesis block" ↔ cs.get_data = []) ∧
    (cs.get_data ≠ [] →
      scopeTag cs = cs.get_hash_string ∧
      cs.get_hash_string ≠ "genesis block" ∧
      scopeTag cs ≠ "genesis block") := by
  have hne : cs.get_hash_string ≠ "genesis block" := by
    unfold ColorSet.get_hash_string
    exact hexDigest_ne_genesis_marker _
  constructor
  · constructor
    · intro h
      by_cases hl : cs.get_data.length = 0
      · exact List.length_eq_zero.mp hl
      · rw [scopeTag, if_neg hl] at h
        exact absurd h hne
    · intro h
      rw [scopeTag, h]
      simp
  · intro h
    have hl : ¬ cs.get_data.length = 0 := by
      intro h0
      exact h (List.length_eq_zero.mp h0)
    refine ⟨by rw [scopeTag, if_neg hl], hne, ?_⟩
    rw [scopeTag, if_neg hl]
    exact hne

/-- Witness for C7 at a concrete non-empty color set. -/
theorem c7_witness :
    csRedEx.get_data ≠ [] ∧
    csRedEx.get_hash_string ≠ "genesis block" ∧
    scopeTag csRedEx ≠ "genesis block" :=
  ⟨by decide, ((c7_genesis_scope_isolation csRedEx).2 (by decide)).2⟩

theorem rawPrivKey_eq_some (r : DeterministicAddressRecord) (v : Nat)
    (hc : r.rawPrivKeyCache = some v) : r.rawPrivKey = (v, r) := by
  unfold DeterministicAddressRecord.rawPrivKey
  rw [hc]

theorem rawPrivKey_eq_none (r : DeterministicAddressRecord)
    (hc : r.rawPrivKeyCache = none) :
    r.rawPrivKey = (eagerPrivKey r,
      { r with rawPrivKeyCache := some (eagerPrivKey r) }) := by
  unfold DeterministicAddressRecord.rawPrivKey
  rw [hc]
  rfl

theorem publicPoint_eq_some (r : DeterministicAddressRecord) (v : ECPoint)
    (hc : r.publicPointCache = some v) : r.publicPoint = (v, r) := by
  unfold DeterministicAddressRecord.publicPoint
  rw [hc]

theorem publicPoint_eq_none (r : DeterministicAddressRecord)
    (hc : r.publicPointCache = none) :
    r.publicPoint = (basePointMul r.rawPrivKey.1,
      { r.rawPrivKey.2 with publicPointCache := some (basePointMul r.rawPrivKey.1) }) := by
  unfold DeterministicAddressRecord.publicPoint
  rw [hc]

theorem address_eq_some (r : DeterministicAddressRecord) (v : String)
    (hc : r.addressCache = some v) : r.address = (v, r) := by
  unfold DeterministicAddressRecord.address
  rw [hc]

theorem address_eq_none (r : DeterministicAddressRecord)
    (hc : r.addressCache = none) :
    r.address = (public_pair_to_bitcoin_address r.publicPoint.1 false (addressVersion r.testnet), { r.publicPoint.2 with addressCache := some (public_pair_to_bitcoin_address r.publicPoint.1 false (addressVersion r.testnet)) }) := by
  unfold DeterministicAddressRecord.address
  rw [hc]

theorem rawPrivKey_specG (r0 r : DeterministicAddressRecord) (h : CacheGood r0 r) :
    r.rawPrivKey.1 = eagerPrivKey r0 ∧ CacheGood r0 r.rawPrivKey.2 := by
  obtain ⟨hd, ht, h1, h2, h3⟩ := h
  cases hc : r.rawPrivKeyCache with
  | some v =>
    rw [rawPrivKey_eq_some r v hc]
    exact ⟨h1 v hc, hd, ht, h1, h2, h3⟩
  | none =>
    rw [rawPrivKey_eq_none r hc]
    have hval : eagerPrivKey r = eagerPrivKey r0 := by
      simp [eagerPrivKey, from_bytes_32, hd]
    refine ⟨hval, hd, ht, ?_, h2, h3⟩
    intro v hv
    have hv2 : some (eagerPrivKey r) = some v := hv
    exact (Option.some.inj hv2).symm.trans hval

theorem publicPoint_specG (r0 r : DeterministicAddressRecord) (h : CacheGood r0 r) :
    r.publicPoint.1 = eagerPoint r0 ∧ CacheGood r0 r.publicPoint.2 := by
  obtain ⟨hp1, hp2⟩ := rawPrivKey_specG r0 r h
  obtain ⟨hd, ht, h1, h2, h3⟩ := h
  cases hc : r.publicPointCache with
  | some v =>
    rw [publicPoint_eq_some r v hc]
    exact ⟨h2 v hc, hd, ht, h1, h2, h3⟩
  | none =>
    obtain ⟨qd, qt, q1, q2, q3⟩ := hp2
    rw [publicPoint_eq_none r hc]
    have hval : basePointMul r.rawPrivKey.1 = eagerPoint r0 := by
      rw [hp1]; rfl
    refine ⟨hval, qd, qt, q1, ?_, q3⟩
    intro v hv
    have hv2 : some (basePointMul r.rawPrivKey.1) = some v := hv
    exact (Option.some.inj hv2).symm.trans hval

theorem address_specG (r0 r : DeterministicAddressRecord) (h : CacheGood r0 r) :
    r.address.1 = eagerAddress r0 ∧ CacheGood r0 r.address.2 := by
  obtain ⟨hp1, hp2⟩ := publicPoint_specG r0 r h
  obtain ⟨hd, ht, h1, h2, h3⟩ := h
  cases hc : r.addressCache with
  | some v =>
    rw [address_eq_some r v hc]
    exact ⟨h3 v hc, hd, ht, h1, h2, h3⟩
  | none =>
    obtain ⟨qd, qt, q1, q2, q3⟩ := hp2
    rw [address_eq_none r hc]
    have hval : public_pair_to_bitcoin_address r.publicPoint.1 false (addressVersion r.testnet)
        = eagerAddress r0 := by
      rw [hp1, ht]; rfl
    refine ⟨hval, qd, qt, q1, q2, ?_⟩
    intro v hv
    have hv2 : some (public_pair_to_bitcoin_address r.publicPoint.1 false (addressVersion r.testnet))
        = some v := hv
    exact (Option.some.inj hv2).symm.trans hval

theorem applyAccess_specG (r0 r : DeterministicAddressRecord) (h : CacheGood r0 r)
    (fa : FieldAccess) : CacheGood r0 (applyAccess r fa) := by
  cases fa with
  | priv => exact (rawPrivKey_specG r0 r h).2
  | point => exact (publicPoint_specG r0 r h).2
  | addr => exact (address_specG r0 r h).2

theorem foldAccess_specG (r0 : DeterministicAddressRecord) (pre : List FieldAccess) :
    ∀ r : DeterministicAddressRecord, CacheGood r0 r →
      CacheGood r0 (pre.foldl applyAccess r) := by
  induction pre with
  | nil => intro r h; exact h
  | cons fa rest ih =>
    intro r h
    rw [List.foldl_cons]
    exact ih (applyAccess r fa) (applyAccess_specG r0 r h fa)

theorem make_cacheGood (master_key : String) (cs : ColorSet) (i : Nat) (tn : Bool) :
    CacheGood (DeterministicAddressRecord.make master_key cs i tn)
      (DeterministicAddressRecord.make master_key cs i tn) := by
  refine ⟨rfl, rfl, ?_, ?_, ?_⟩ <;> intro v hv <;>
    simp [DeterministicAddressRecord.make] at hv

/-- C8 — Determinism of derivation: the private scalar, public point and
address string of a record constructed with given
`(master_key, color_set, index, testnet)` are pure functions of those
arguments (the eager values), no matter which lazily memoized properties
were accessed before, in which order (`pre`).  Hence two constructions from
identical arguments agree on all three values on every access, and lazy
caching is equivalent to eager computation. -/
theorem c8_derivation_deterministic (master_key : String) (cs : ColorSet)
    (i : Nat) (tn : Bool) (pre : List FieldAccess) :
    ((pre.foldl applyAccess (DeterministicAddressRecord.make master_key cs i tn)).rawPrivKey.1
      = eagerPrivKey (DeterministicAddressRecord.make master_key cs i tn)) ∧
    ((pre.foldl applyAccess (DeterministicAddressRecord.make master_key cs i tn)).publicPoint.1
      = eagerPoint (DeterministicAddressRecord.make master_key cs i tn)) ∧
    ((pre.foldl applyAccess (DeterministicAddressRecord.make master_key cs i tn)).address.1
      = eagerAddress (DeterministicAddressRecord.make master_key cs i tn)) := by
  have hg := foldAccess_specG (DeterministicAddressRecord.make master_key cs i tn) pre
    (DeterministicAddressRecord.make master_key cs i tn)
    (make_cacheGood master_key cs i tn)
  exact ⟨(rawPrivKey_specG _ _ hg).1, (publicPoint_specG _ _ hg).1, (address_specG _ _ hg).1⟩

/-- C6 — Backend factory behavior: off testnet, an unknown backend name is a
fatal error (raised by the final dispatch, before any network activity or
state change — the factory has constructed nothing at that point); on
testnet, any requested name outside the permitted set, valid names such as
`electrum` and `blockchain.info` included, is silently replaced by the
default `chromanode` instance rather than rejected. -/
theorem c6_backend_factory (params : FetchParams) :
    (requestedBackend params ∉ knownBackends →
      make_interface false params = Except.error "Unknown service for UTXOFetcher!") ∧
    (requestedBackend params ∉ testnetBackends →
      make_interface true params = Except.ok (BackendInterface.chromanode true)) := by
  constructor
  · intro h
    simp only [knownBackends, List.mem_cons, List.mem_singleton, not_or] at h
    obtain ⟨h1, h2, h3, h4, h5⟩ := h
    simp [make_interface, h1, h2, h3, h4, h5]
  · intro h
    simp [make_interface, h]

/-- Witness for C6: the unknown name `bogus` off testnet, and the
otherwise-valid name `electrum` on testnet. -/
theorem c6_witness :
    (requestedBackend paramsBogusEx ∉ knownBackends ∧
      make_interface false paramsBogusEx = Except.error "Unknown service for UTXOFetcher!") ∧
    (requestedBackend paramsElectrumEx ∉ testnetBackends ∧
      make_interface true paramsElectrumEx = Except.ok (BackendInterface.chromanode true)) :=
  ⟨⟨by decide, (c6_backend_factory paramsBogusEx).1 (by decide)⟩,
   ⟨by decide, (c6_backend_factory paramsElectrumEx).2 (by decide)⟩⟩

theorem drainLoop_spec {σ : Type} (add_tx_by_hash : σ → String → σ × Bool) :
    ∀ (q : List String) (db : σ) (any_got_updates : Bool),
      drainLoop add_tx_by_hash db q any_got_updates =
        (foldIngest add_tx_by_hash db q, [],
          any_got_updates || (ingestReports add_tx_by_hash db q).any id) := by
  intro q
  induction q with
  | nil => intro db any_got_updates; simp [drainLoop, foldIngest, ingestReports]
  | cons h t ih =>
    intro db any_got_updates
    simp [drainLoop, foldIngest, ingestReports, ih, Bool.or_assoc]

/-- C4 — `update()` semantics: every call refreshes the address snapshot
from the address manager, drains the entire pending queue feeding each id
to the transaction store in first-in-first-out order (the final store is
the left fold over the queue), and returns true iff at least one of the
ingested ids was reported as new (the count of true reports is positive). -/
theorem c4_update_semantics {σ : Type} (f : AsyncUTXOFetcher σ) :
    f.update.2.address_list = f.wam.get_all_addresses.map WalletAddress.get_address ∧
    f.update.2.hash_queue = [] ∧
    f.update.2.txdb = foldIngest f.add_tx_by_hash f.txdb f.hash_queue ∧
    (f.update.1 = true ↔
      0 < (ingestReports f.add_tx_by_hash f.txdb f.hash_queue).count true) := by
  simp only [AsyncUTXOFetcher.update, drainLoop_spec]
  simp [List.any_eq_true, List.count_pos_iff]

/-- C3 counterexample — the claim that the same sweep continues scanning the
remaining addresses of the snapshot after an error is false on the code: in
the snapshot `["b", "g"]` the scan of `"b"` raises; the error is caught and
reported (`some "boom"`), but `"g"` — whose scan would succeed — is not
scanned in that sweep, because the `try` wraps the entire `for` loop. -/
theorem c3_counterexample :
    scanBad "g" = Except.ok () ∧
    (sweepScan true scanBad ["b", "g"]).2 = some "boom" ∧
    "g" ∉ (sweepScan true scanBad ["b", "g"]).1 := by
  simp [sweepScan, scanBad]

/-- C3 (amended) — Background sweep fault isolation, as the code actually
behaves: during one pass over the snapshot, an error raised while scanning
an address is caught (it does not escape the loop body) and reported, but
it aborts the current sweep: exactly the addresses up to and including the
first failing one are scanned, and the reported error is that of the first
failing address. -/
theorem c3_sweep_abort (scan : String → Except String Unit) (l : List String) :
    sweepScan true scan l = (sweepScannedSpec scan l, sweepReportedSpec scan l) := by
  induction l with
  | nil => simp [sweepScan, sweepScannedSpec, sweepReportedSpec]
  | cons a rest ih =>
    cases hs : scan a with
    | error e =>
      simp [sweepScan, sweepScannedSpec, sweepReportedSpec, scanOk, hs]
    | ok u =>
      simp [sweepScan, sweepScannedSpec, sweepReportedSpec, scanOk, hs, ih]

/-- C10 — Empty-color-set queries: a colorless query (empty color id set)
intersects no record, so `get_addresses_for_color_set` returns the empty
list, and `get_some_address` / `get_change_address` never reuse an existing
address: both take the allocation path and return exactly
`get_new_address`'s result. -/
theorem c10_empty_color_set_query (m : DWalletAddressManager) (cs : ColorSet)
    (h : cs.colorIdSet = ∅) :
    m.get_addresses_for_color_set cs = [] ∧
    m.get_some_address cs = m.get_new_address (AssetOrColorSet.colorSet cs) ∧
    m.get_change_address cs = m.get_new_address (AssetOrColorSet.colorSet cs) := by
  have h1 : m.get_addresses_for_color_set cs = [] := by
    unfold DWalletAddressManager.get_addresses_for_color_set
    apply List.filter_eq_nil_iff.mpr
    intro a _
    simp [ColorSet.intersects, h]
  have h2 : m.get_some_address cs = m.get_new_address (AssetOrColorSet.colorSet cs) := by
    unfold DWalletAddressManager.get_some_address
    rw [h1]
  exact ⟨h1, h2, h2⟩

/-- Witness for C10 at a concrete manager and the concrete colorless set. -/
theorem c10_witness :
    csEmptyEx.colorIdSet = ∅ ∧
    mEx.get_addresses_for_color_set csEmptyEx = [] ∧
    mEx.get_some_address csEmptyEx = mEx.get_new_address (AssetOrColorSet.colorSet csEmptyEx) :=
  ⟨by decide, (c10_empty_color_set_query mEx csEmptyEx (by decide)).1,
    (c10_empty_color_set_query mEx csEmptyEx (by decide)).2.1⟩

theorem persisted_update_config (m : DWalletAddressManager) :
    Persisted m.update_config := by
  simp [Persisted, DWalletAddressManager.update_config]

/-- C9 — Genesis rebinding precondition: with the address argument
identified as the deterministic record `a` at position `ai` of the address
list (and its genesis index in range), `update_genesis_address` fails with
the assertion-style error exactly when `a` does not carry the colorless
(empty) color set; on success it rebinds the record's in-memory color set
and the genesis-registry slot at the record's index, and persists the
updated state. -/
theorem c9_genesis_rebinding (m : DWalletAddressManager) (ai : Nat)
    (a : DeterministicAddressRecord) (cs : ColorSet)
    (ha : m.addresses.get? ai = some (WalletAddress.det a))
    (_hidx : a.index < m.genesis_color_sets.length) :
    (m.update_genesis_address ai cs = Except.error "AssertionError" ↔
      a.color_set.colorIdSet ≠ ∅) ∧
    (a.color_set.colorIdSet = ∅ →
      m.update_genesis_address ai cs = Except.ok (DWalletAddressManager.update_config
        { m with
            addresses := m.addresses.set ai (WalletAddress.det { a with color_set := cs }),
            genesis_color_sets := m.genesis_color_sets.set a.index cs.get_data }) ∧
      ∀ m2 : DWalletAddressManager, m.update_genesis_address ai cs = Except.ok m2 →
        Persisted m2) := by
  unfold DWalletAddressManager.update_genesis_address
  rw [ha]
  by_cases hcl : a.color_set.colorIdSet = (∅ : Finset Nat)
  · simp only [if_pos hcl]
    refine ⟨⟨fun h => by simp at h, fun h => absurd hcl h⟩, fun _ => ⟨by trivial, ?_⟩⟩
    intro m2 h2
    have h3 := Except.ok.inj h2
    rw [← h3]
    exact persisted_update_config _
  · simp only [if_neg hcl]
    exact ⟨⟨fun _ => hcl, fun _ => by trivial⟩, fun h => absurd h hcl⟩

/-- Witness for C9 at a concrete manager holding a colorless genesis
address at position 0. -/
theorem c9_witness :
    mGenEx.addresses.get? 0 = some (WalletAddress.det rGenEx) ∧
    rGenEx.index < mGenEx.genesis_color_sets.length ∧
    (mGenEx.update_genesis_address 0 csRedEx = Except.error "AssertionError" ↔
      rGenEx.color_set.colorIdSet ≠ ∅) :=
  ⟨by decide, by decide,
    (c9_genesis_rebinding mGenEx 0 rGenEx csRedEx (by decide) (by decide)).1⟩

theorem incrementLoop_none_of (cm : ColorMap) (cs : ColorSet) :
    ∀ states : List CSState,
      (∀ e ∈ states, (ColorSet.make cm e.color_set).equals cs = false) →
      incrementLoop cm cs states = none := by
  intro states
  induction states with
  | nil => intro _; rfl
  | cons e rest ih =>
    intro h
    have he := h e (List.mem_cons_self e rest)
    have hrest := ih (fun x hx => h x (List.mem_cons_of_mem e hx))
    simp [incrementLoop, he, hrest]

theorem incrementLoop_none_inv (cm : ColorMap) (cs : ColorSet) :
    ∀ states : List CSState, incrementLoop cm cs states = none →
      ∀ e ∈ states, (ColorSet.make cm e.color_set).equals cs = false := by
  intro states
  induction states with
  | nil => intro _ e he; simp at he
  | cons f rest ih =>
    intro h e he
    by_cases hf : (ColorSet.make cm f.color_set).equals cs = true
    · simp [incrementLoop, hf] at h
    · have hf2 : (ColorSet.make cm f.color_set).equals cs = false :=
        Bool.not_eq_true _ ▸ Bool.eq_false_iff.mpr hf
      rcases List.mem_cons.mp he with he1 | he2
      · rw [he1]; exact hf2
      · apply ih ?_ e he2
        simp [incrementLoop, hf2] at h
        cases hrest : incrementLoop cm cs rest with
        | none => rfl
        | some p => rw [hrest] at h; simp at h

theorem incrementLoop_append_none (cm : ColorMap) (cs : ColorSet)
    (l2 : List CSState) :
    ∀ l1 : List CSState,
      (∀ e ∈ l1, (ColorSet.make cm e.color_set).equals cs = false) →
      incrementLoop cm cs (l1 ++ l2) =
        (incrementLoop cm cs l2).map (fun p => (p.1, l1 ++ p.2)) := by
  intro l1
  induction l1 with
  | nil =>
    intro _
    rw [List.nil_append]
    cases incrementLoop cm cs l2 <;> simp
  | cons e rest ih =>
    intro h
    have he := h e (List.mem_cons_self e rest)
    have hrest := ih (fun x hx => h x (List.mem_cons_of_mem e hx))
    rw [List.cons_append]
    simp only [incrementLoop, he]
    rw [hrest]
    cases incrementLoop cm cs l2 <;> simp

theorem equals_self (cs : ColorSet) : cs.equals cs = true := by
  simp [ColorSet.equals]

theorem make_get_data_of_wf (cm : ColorMap) (cs : ColorSet)
    (hwf : ColorSet.WF cm cs) : ColorSet.make cm cs.get_data = cs := by
  rw [ColorSet.get_data, ← hwf]

theorem get_new_address_persisted (m : DWalletAddressManager) (x : AssetOrColorSet) :
    Persisted (m.get_new_address x).2 := by
  unfold DWalletAddressManager.get_new_address
  exact persisted_update_config _

theorem get_new_address_eq_none (m : DWalletAddressManager) (cs : ColorSet)
    (h : incrementLoop m.colormap cs m.color_set_states = none) :
    m.get_new_address (AssetOrColorSet.colorSet cs) =
      (WalletAddress.det (DeterministicAddressRecord.make m.master_key cs 0 m.testnet),
       DWalletAddressManager.update_config { m with
         color_set_states :=
           m.color_set_states ++ [{ color_set := cs.get_data, max_index := 0 }],
         addresses := m.addresses ++
           [WalletAddress.det (DeterministicAddressRecord.make m.master_key cs 0 m.testnet)] }) := by
  simp only [DWalletAddressManager.get_new_address,
    DWalletAddressManager.increment_max_index_for_color_set, h]

theorem get_new_address_eq_some (m : DWalletAddressManager) (cs : ColorSet)
    (n : Nat) (sts : List CSState)
    (h : incrementLoop m.colormap cs m.color_set_states = some (n, sts)) :
    m.get_new_address (AssetOrColorSet.colorSet cs) =
      (WalletAddress.det (DeterministicAddressRecord.make m.master_key cs n m.testnet),
       DWalletAddressManager.update_config { m with
         color_set_states := sts,
         addresses := m.addresses ++
           [WalletAddress.det (DeterministicAddressRecord.make m.master_key cs n m.testnet)] }) := by
  simp only [DWalletAddressManager.get_new_address,
    DWalletAddressManager.increment_max_index_for_color_set, h]

theorem iterAlloc_new_spec (m : DWalletAddressManager) (cs : ColorSet)
    (hwf : ColorSet.WF m.colormap cs)
    (hnew : ∀ e ∈ m.color_set_states,
      (ColorSet.make m.colormap e.color_set).equals cs = false) :
    ∀ k : Nat,
      (iterAlloc m cs (k + 1)).color_set_states =
        m.color_set_states ++ [{ color_set := cs.get_data, max_index := k }] ∧
      (iterAlloc m cs (k + 1)).master_key = m.master_key ∧
      (iterAlloc m cs (k + 1)).testnet = m.testnet ∧
      (iterAlloc m cs (k + 1)).colormap = m.colormap ∧
      ((iterAlloc m cs k).get_new_address (AssetOrColorSet.colorSet cs)).1 =
        WalletAddress.det
          (DeterministicAddressRecord.make m.master_key cs k m.testnet) := by
  intro k
  induction k with
  | zero =>
    have hloop := incrementLoop_none_of m.colormap cs m.color_set_states hnew
    have hga := get_new_address_eq_none m cs hloop
    refine ⟨?_, ?_, ?_, ?_, ?_⟩ <;>
      simp [iterAlloc, hga, DWalletAddressManager.update_config]
  | succ k ih =>
    obtain ⟨ihs, ihm, iht, ihc, _⟩ := ih
    have hmatch : (ColorSet.make m.colormap
        ({ color_set := cs.get_data, max_index := k } : CSState).color_set).equals cs = true := by
      show (ColorSet.make m.colormap cs.get_data).equals cs = true
      rw [make_get_data_of_wf m.colormap cs hwf]
      exact equals_self cs
    have hloopM : incrementLoop (iterAlloc m cs (k + 1)).colormap cs
        (iterAlloc m cs (k + 1)).color_set_states =
        some (k + 1, m.color_set_states ++
          [{ color_set := cs.get_data, max_index := k + 1 }]) := by
      rw [ihc, ihs, incrementLoop_append_none m.colormap cs
        [{ color_set := cs.get_data, max_index := k }] m.color_set_states hnew]
      simp [incrementLoop, hmatch]
    have hga := get_new_address_eq_some (iterAlloc m cs (k + 1)) cs (k + 1)
      (m.color_set_states ++ [{ color_set := cs.get_data, max_index := k + 1 }]) hloopM
    have h2 : iterAlloc m cs (k + 1 + 1) =
        ((iterAlloc m cs (k + 1)).get_new_address (AssetOrColorSet.colorSet cs)).2 := rfl
    refine ⟨?_, ?_, ?_, ?_, ?_⟩
    · rw [h2, hga]; simp [DWalletAddressManager.update_config]
    · rw [h2, hga]; simp [DWalletAddressManager.update_config, ihm]
    · rw [h2, hga]; simp [DWalletAddressManager.update_config, iht]
    · rw [h2, hga]; simp [DWalletAddressManager.update_config, ihc]
    · rw [hga]; simp [ihm, iht]

/-- C1 — Allocation counter monotonicity: starting from any manager state
for which the color set `cs` is semantically new (no counter matches it),
the `N`-th successive `get_new_address` allocation for `cs` (`N ≥ 1`)
returns exactly the deterministic record at index `N - 1` (so the first
returns index 0), and the state after each allocation has the updated
counter list persisted in the configuration before `get_new_address`
returned. -/
theorem c1_counter_monotonicity (m : DWalletAddressManager) (cs : ColorSet)
    (hwf : ColorSet.WF m.colormap cs)
    (hnew : ∀ e ∈ m.color_set_states,
      (ColorSet.make m.colormap e.color_set).equals cs = false)
    (N : Nat) (hN : 1 ≤ N) :
    nthAllocResult m cs N =
      WalletAddress.det
        (DeterministicAddressRecord.make m.master_key cs (N - 1) m.testnet) ∧
    Persisted (iterAlloc m cs N) := by
  obtain ⟨n, rfl⟩ : ∃ n, N = n + 1 := ⟨N - 1, by omega⟩
  constructor
  · show ((iterAlloc m cs (n + 1 - 1)).get_new_address (AssetOrColorSet.colorSet cs)).1 = _
    simp only [Nat.add_sub_cancel]
    exact (iterAlloc_new_spec m cs hwf hnew n).2.2.2.2
  · exact get_new_address_persisted (iterAlloc m cs n) (AssetOrColorSet.colorSet cs)

/-- Witness for C1: three allocations of a concrete color set on a fresh
concrete manager; the third returns index 2 and the state is persisted. -/
theorem c1_witness :
    ColorSet.WF mEx.colormap csRedEx ∧
    (∀ e ∈ mEx.color_set_states,
      (ColorSet.make mEx.colormap e.color_set).equals csRedEx = false) ∧
    1 ≤ 3 ∧
    (nthAllocResult mEx csRedEx 3 =
      WalletAddress.det
        (DeterministicAddressRecord.make mEx.master_key csRedEx 2 mEx.testnet) ∧
     Persisted (iterAlloc mEx csRedEx 3)) :=
  ⟨by decide, by decide, by decide,
    c1_counter_monotonicity mEx csRedEx (by decide) (by decide) 3 (by decide)⟩

theorem materializedStates_append (cm : ColorMap) (master_key : String) (tn : Bool)
    (l1 l2 : List CSState) :
    materializedStates cm master_key tn (l1 ++ l2) =
      materializedStates cm master_key tn l1 ++ materializedStates cm master_key tn l2 := by
  simp [materializedStates]

theorem materializedStates_cons (cm : ColorMap) (master_key : String) (tn : Bool)
    (e : CSState) (l : List CSState) :
    materializedStates cm master_key tn (e :: l) =
      (List.range (e.max_index + 1)).map (fun index =>
        WalletAddress.det (DeterministicAddressRecord.make master_key
          (ColorSet.make cm e.color_set) index tn)) ++ materializedStates cm master_key tn l := by
  simp [materializedStates]

theorem incrementLoop_some_inv (cm : ColorMap) (cs : ColorSet) :
    ∀ (states : List CSState) (n : Nat) (sts : List CSState),
      incrementLoop cm cs states = some (n, sts) →
      ∃ l1 e l2, states = l1 ++ e :: l2 ∧
        (ColorSet.make cm e.color_set).equals cs = true ∧
        n = e.max_index + 1 ∧
        sts = l1 ++ { e with max_index := e.max_index + 1 } :: l2 := by
  intro states
  induction states with
  | nil => intro n sts h; simp [incrementLoop] at h
  | cons e rest ih =>
    intro n sts h
    by_cases he : (ColorSet.make cm e.color_set).equals cs = true
    · simp only [incrementLoop, he, if_true] at h
      simp only [Option.some.injEq, Prod.mk.injEq] at h
      exact ⟨[], e, rest, by simp, he, h.1.symm, by rw [← h.2]; rfl⟩
    · have he2 : (ColorSet.make cm e.color_set).equals cs = false :=
        Bool.eq_false_iff.mpr he
      simp only [incrementLoop, he2, Bool.false_eq_true, if_false] at h
      cases hr : incrementLoop cm cs rest with
      | none => rw [hr] at h; simp at h
      | some q =>
        rw [hr] at h
        simp only [Option.map_some', Option.some.injEq, Prod.mk.injEq] at h
        obtain ⟨l1, f, l2, h1, h2, h3, h4⟩ := ih q.1 q.2 hr
        refine ⟨e :: l1, f, l2, ?_, h2, ?_, ?_⟩
        · rw [List.cons_append, ← h1]
        · rw [← h.1, h3]
        · rw [← h.2, h4]; rfl

theorem runInv_step (cm : ColorMap) (master_key : String) (tn : Bool)
    (css : List ColorSet) (m : DWalletAddressManager) (cs : ColorSet)
    (hspec : AllocSpec cm css) (hcs : cs ∈ css)
    (hinv : RunInv cm master_key tn css m) :
    RunInv cm master_key tn css (m.get_new_address (AssetOrColorSet.colorSet cs)).2 := by
  obtain ⟨hwfAll, hdist⟩ := hspec
  have hwf : ColorSet.WF cm cs := hwfAll cs hcs
  have hmk : ColorSet.make cm cs.get_data = cs := make_get_data_of_wf cm cs hwf
  cases hloop : incrementLoop m.colormap cs m.color_set_states with
  | none =>
    rw [get_new_address_eq_none m cs hloop]
    refine ⟨?_, ?_, ?_, ?_, ?_, ?_, ?_, ?_, ?_, ?_⟩
    · simp [DWalletAddressManager.update_config, hinv.mkey]
    · simp [DWalletAddressManager.update_config, hinv.tnet]
    · simp [DWalletAddressManager.update_config, hinv.cmap]
    · simp [DWalletAddressManager.update_config, hinv.gen]
    · simp [DWalletAddressManager.update_config, hinv.cfgTn]
    · simp [DWalletAddressManager.update_config, hinv.cfgKey]
    · simp [DWalletAddressManager.update_config, hinv.cfgAddrs]
    · exact persisted_update_config _
    · intro e he
      simp only [DWalletAddressManager.update_config] at he
      rcases List.mem_append.mp he with he | he
      · exact hinv.statesSrc e he
      · refine ⟨cs, hcs, ?_⟩
        rw [List.mem_singleton.mp he]
        rfl
    · simp only [DWalletAddressManager.update_config]
      have hblock : materializedStates cm master_key tn
          [{ color_set := cs.get_data, max_index := 0 }] =
          [WalletAddress.det (DeterministicAddressRecord.make master_key cs 0 tn)] := by
        simp [materializedStates, hmk]
        rfl
      rw [materializedStates_append, hblock, hinv.mkey, hinv.tnet]
      exact hinv.addrsPerm.append_right _
  | some p =>
    obtain ⟨n, sts⟩ := p
    have hloop2 : incrementLoop cm cs m.color_set_states = some (n, sts) := by
      rw [← hinv.cmap]; exact hloop
    obtain ⟨l1, e, l2, hst, hmatch, hn, hsts⟩ :=
      incrementLoop_some_inv cm cs m.color_set_states n sts hloop2
    obtain ⟨csE, hcsE, hdesc⟩ := hinv.statesSrc e
      (by rw [hst]; exact List.mem_append_right _ (List.mem_cons_self e l2))
    have hmakeE : ColorSet.make cm e.color_set = csE := by
      rw [hdesc]; exact (hwfAll csE hcsE).symm
    have hEcs : csE = cs := hdist csE hcsE cs hcs (by rw [← hmakeE]; exact hmatch)
    have hdesc2 : e.color_set = cs.colorDescList := by rw [hdesc, hEcs]
    rw [get_new_address_eq_some m cs n sts hloop]
    refine ⟨?_, ?_, ?_, ?_, ?_, ?_, ?_, ?_, ?_, ?_⟩
    · simp [DWalletAddressManager.update_config, hinv.mkey]
    · simp [DWalletAddressManager.update_config, hinv.tnet]
    · simp [DWalletAddressManager.update_config, hinv.cmap]
    · simp [DWalletAddressManager.update_config, hinv.gen]
    · simp [DWalletAddressManager.update_config, hinv.cfgTn]
    · simp [DWalletAddressManager.update_config, hinv.cfgKey]
    · simp [DWalletAddressManager.update_config, hinv.cfgAddrs]
    · exact persisted_update_config _
    · intro x hx
      simp only [DWalletAddressManager.update_config] at hx
      rw [hsts] at hx
      rcases List.mem_append.mp hx with hx | hx
      · exact hinv.statesSrc x (by rw [hst]; exact List.mem_append_left _ hx)
      · rcases List.mem_cons.mp hx with hx | hx
        · refine ⟨cs, hcs, ?_⟩
          rw [hx]
          exact hdesc2
        · exact hinv.statesSrc x
            (by rw [hst]; exact List.mem_append_right _ (List.mem_cons_of_mem _ hx))
    · simp only [DWalletAddressManager.update_config]
      rw [List.perm_iff_count]
      intro a
      have h0 := hinv.addrsPerm.count_eq a
      rw [hst, materializedStates_append, materializedStates_cons] at h0
      rw [hsts, materializedStates_append, materializedStates_cons]
      have hna : WalletAddress.det (DeterministicAddressRecord.make master_key
          (ColorSet.make cm e.color_set) (e.max_index + 1) tn) =
          WalletAddress.det (DeterministicAddressRecord.make m.master_key cs n m.testnet) := by
        rw [hmakeE, hEcs, hinv.mkey, hinv.tnet, hn]
      rw [List.range_succ, List.map_append]
      simp only [List.count_append] at h0 ⊢
      simp only [List.map_cons, List.map_nil, hna]
      omega

theorem runInv_init (cm : ColorMap) (master_key : String) (tn : Bool)
    (css : List ColorSet) :
    RunInv cm master_key tn css
      (DWalletAddressManager.init cm (freshConfig master_key tn)) := by
  refine ⟨rfl, rfl, rfl, rfl, rfl, rfl, rfl, rfl, ?_, ?_⟩
  · intro e he
    have h0 : (DWalletAddressManager.init cm (freshConfig master_key tn)).color_set_states
        = [] := rfl
    rw [h0] at he
    simp at he
  · exact List.Perm.refl _

theorem runInv_run (cm : ColorMap) (master_key : String) (tn : Bool)
    (css : List ColorSet) (hspec : AllocSpec cm css) :
    ∀ l : List ColorSet, (∀ cs ∈ l, cs ∈ css) →
      ∀ m : DWalletAddressManager, RunInv cm master_key tn css m →
      RunInv cm master_key tn css (allocRun m l) := by
  intro l
  induction l with
  | nil => intro _ m h; exact h
  | cons c t ih =>
    intro hsub m h
    have h1 := runInv_step cm master_key tn css m c hspec
      (hsub c (List.mem_cons_self c t)) h
    exact ih (fun x hx => hsub x (List.mem_cons_of_mem c hx)) _ h1

theorem init_of_state (cm : ColorMap) (cfg : Config) (sts : List CSState)
    (hd : cfg.dwam = some { genesis_color_sets := [], color_set_states := sts })
    (ha : cfg.addresses = []) :
    (DWalletAddressManager.init cm cfg).addresses =
      materializedStates cm cfg.dw_master_key cfg.testnet sts := by
  simp only [DWalletAddressManager.init, hd,
    DWalletAddressManager.import_genesis_addresses,
    DWalletAddressManager.import_specific_color_addresses,
    DWalletAddressManager.import_one_off_addresses_from_config, ha,
    materializedStates, List.enum_nil, List.map_nil, List.nil_append,
    List.append_nil, List.foldl_nil]

/-- C2 — Restart round-trip fidelity: run `K = css.length` allocations
across the color sets of `css` (each well-formed, and pairwise distinct up
to semantic equality: semantically equal entries are the same set) on a
fresh wallet; construct a fresh manager from the resulting persisted
configuration (same master key and testnet flag, and the persisted
`{genesis_color_sets, color_set_states}`).  The fresh manager materializes
exactly the same set of address strings as the original manager holds. -/
theorem c2_restart_roundtrip (cm : ColorMap) (master_key : String) (tn : Bool)
    (css : List ColorSet) (s : String)
    (hwf : ∀ cs ∈ css, ColorSet.WF cm cs)
    (hdist : ∀ cs1 ∈ css, ∀ cs2 ∈ css, cs1.equals cs2 = true → cs1 = cs2) :
    (s ∈ (DWalletAddressManager.init cm
        (allocRun (DWalletAddressManager.init cm (freshConfig master_key tn)) css).config).addressStrings ↔
     s ∈ (allocRun (DWalletAddressManager.init cm (freshConfig master_key tn)) css).addressStrings) := by
  have hinv := runInv_run cm master_key tn css ⟨hwf, hdist⟩ css (fun _ h => h) _
    (runInv_init cm master_key tn css)
  set st := allocRun (DWalletAddressManager.init cm (freshConfig master_key tn)) css
  have hd : st.config.dwam =
      some { genesis_color_sets := [], color_set_states := st.color_set_states } := by
    have hp := hinv.pers
    rw [Persisted, hinv.gen] at hp
    exact hp
  have haddrs := init_of_state cm st.config st.color_set_states hd hinv.cfgAddrs
  unfold DWalletAddressManager.addressStrings
  rw [haddrs, hinv.cfgKey, hinv.cfgTn]
  exact (List.Perm.mem_iff (hinv.addrsPerm.map WalletAddress.get_address)).symm

/-- Witness for C2: three allocations across two distinct concrete color
sets, checked at a concrete query string. -/
theorem c2_witness :
    (∀ cs ∈ cssEx, ColorSet.WF cmEx cs) ∧
    (∀ cs1 ∈ cssEx, ∀ cs2 ∈ cssEx, cs1.equals cs2 = true → cs1 = cs2) ∧
    ("x" ∈ (DWalletAddressManager.init cmEx
        (allocRun (DWalletAddressManager.init cmEx (freshConfig "master" false)) cssEx).config).addressStrings ↔
     "x" ∈ (allocRun (DWalletAddressManager.init cmEx (freshConfig "master" false)) cssEx).addressStrings) :=
  ⟨by decide, by decide,
    c2_restart_roundtrip cmEx "master" false cssEx "x" (by decide) (by decide)⟩

theorem engineInv_init (address_list : List String) :
    EngineInv (engineInit address_list) := by
  refine ⟨?_, ?_, ?_, ?_⟩ <;> intro h <;> simp [engineInit] at h

theorem engineStep_inv {st : EngineState} {l : EngineLabel} {st' : EngineState}
    (hs : EngineStep st l st') (hinv : EngineInv st) : EngineInv st' := by
  obtain ⟨i1, i2, i3, i4⟩ := hinv
  cases hs <;> refine ⟨?_, ?_, ?_, ?_⟩ <;> intro h <;> simp_all

theorem engineTrace_inv :
    ∀ (tr : List (EngineLabel × EngineState)) (st : EngineState),
      EngineTrace st tr → EngineInv st →
      ∀ (i : Nat) (l : EngineLabel) (s : EngineState),
        tr[i]? = some (l, s) → EngineInv s := by
  intro tr
  induction tr with
  | nil => intro st _ _ i l s hi; simp at hi
  | cons p rest ih =>
    intro st htr hinv i l s hi
    cases htr with
    | cons _ l0 st0 _ hstep htr0 =>
      cases i with
      | zero =>
        simp at hi
        rw [← hi.2]
        exact engineStep_inv hstep hinv
      | succ n =>
        simp at hi
        exact ih st0 htr0 (engineStep_inv hstep hinv) n l s hi

theorem engineStep_done {st : EngineState} {l : EngineLabel} {st' : EngineState}
    (hs : EngineStep st l st') (hw : st.w = WLoc.done) :
    st'.w = WLoc.done ∧ ∀ a, l ≠ EngineLabel.scan a := by
  cases hs <;> simp_all

theorem engineTrace_done :
    ∀ (tr : List (EngineLabel × EngineState)) (st : EngineState),
      EngineTrace st tr → st.w = WLoc.done →
      ∀ (i : Nat) (l : EngineLabel) (s : EngineState),
        tr[i]? = some (l, s) → ∀ a, l ≠ EngineLabel.scan a := by
  intro tr
  induction tr with
  | nil => intro st _ _ i l s hi; simp at hi
  | cons p rest ih =>
    intro st htr hw i l s hi
    cases htr with
    | cons _ l0 st0 _ hstep htr0 =>
      obtain ⟨hw0, hl0⟩ := engineStep_done hstep hw
      cases i with
      | zero =>
        simp at hi
        rw [← hi.1]
        exact hl0
      | succ n =>
        simp at hi
        exact ih st0 htr0 hw0 n l s hi

theorem engineTrace_drop :
    ∀ (tr : List (EngineLabel × EngineState)) (st : EngineState),
      EngineTrace st tr →
      ∀ (i : Nat) (l : EngineLabel) (s : EngineState),
        tr[i]? = some (l, s) → EngineTrace s (tr.drop (i + 1)) := by
  intro tr
  induction tr with
  | nil => intro st _ i l s hi; simp at hi
  | cons p rest ih =>
    intro st htr i l s hi
    cases htr with
    | cons _ l0 st0 _ hstep htr0 =>
      cases i with
      | zero =>
        simp at hi
        rw [List.drop_succ_cons, List.drop_zero]
        rw [← hi.2]
        exact htr0
      | succ n =>
        simp at hi
        rw [List.drop_succ_cons]
        exact ih st0 htr0 n l s hi

theorem engineStep_stopReturn {st st' : EngineState}
    (hs : EngineStep st EngineLabel.stopReturn st') :
    st.s = SLoc.signalled ∧ st.w = WLoc.done ∧ st' = { st with s := SLoc.returned } := by
  cases hs
  exact ⟨by assumption, by assumption, rfl⟩

theorem engineStep_idle {st : EngineState} {l : EngineLabel} {st' : EngineState}
    (hs : EngineStep st l st') (h : st.s = SLoc.idle) :
    l = EngineLabel.disconnect ∨ st'.s = SLoc.idle := by
  cases hs <;> simp_all

theorem engineTrace_disc_before :
    ∀ (tr : List (EngineLabel × EngineState)) (st : EngineState),
      EngineTrace st tr → st.s = SLoc.idle →
      ∀ (i : Nat) (l : EngineLabel) (s : EngineState),
        tr[i]? = some (l, s) → l = EngineLabel.stopReturn →
        ∃ j, j < i ∧ ∃ sj, tr[j]? = some (EngineLabel.disconnect, sj) := by
  intro tr
  induction tr with
  | nil => intro st _ _ i l s hi; simp at hi
  | cons p rest ih =>
    intro st htr hidle i l s hi hl
    cases htr with
    | cons _ l0 st0 _ hstep htr0 =>
      cases i with
      | zero =>
        simp at hi
        rw [← hi.1] at hl
        rw [hl] at hstep
        have := (engineStep_stopReturn hstep).1
        rw [hidle] at this
        simp at this
      | succ n =>
        simp at hi
        rcases engineStep_idle hstep hidle with hdisc | hidle0
        · refine ⟨0, Nat.succ_pos n, st0, ?_⟩
          rw [hdisc]
          simp
        · obtain ⟨j, hj, sj, hsj⟩ := ih st0 htr0 hidle0 n l s hi hl
          exact ⟨j + 1, by omega, sj, by simpa using hsj⟩

theorem engineTrace_step_at :
    ∀ (tr : List (EngineLabel × EngineState)) (st : EngineState),
      EngineTrace st tr →
      ∀ (i : Nat) (l : EngineLabel) (s : EngineState),
        tr[i]? = some (l, s) → ∃ pre, EngineStep pre l s := by
  intro tr
  induction tr with
  | nil => intro st _ i l s hi; simp at hi
  | cons p rest ih =>
    intro st htr i l s hi
    cases htr with
    | cons _ l0 st0 _ hstep htr0 =>
      cases i with
      | zero =>
        simp at hi
        rw [← hi.1, ← hi.2]
        exact ⟨st, hstep⟩
      | succ n =>
        simp at hi
        exact ih st0 htr0 n l s hi

/-- C5 — Stop-safety: along every interleaving of the started worker and
`stop()` from the initial engine state, if `stop()` returns (label
`stopReturn` at position `i`), then at that point the worker has exited
(`w = done`, which is what the `thread.join()` guard demands), the backend
is disconnected and the running flag is cleared (both done under the mutex
by the lock step), the cancellation event is signalled — and no backend
scan (`scan_address` / `get_utxo`) occurs anywhere after `stop()` returned. -/
theorem c5_stop_safety (al : List String) (tr : List (EngineLabel × EngineState))
    (htr : EngineTrace (engineInit al) tr) (i : Nat) (sti : EngineState)
    (hi : tr[i]? = some (EngineLabel.stopReturn, sti)) :
    (sti.w = WLoc.done ∧ sti.running = false ∧
      sti.disconnected = true ∧ sti.stopEvt = true) ∧
    (∃ j, j < i ∧ ∃ sj, tr[j]? = some (EngineLabel.disconnect, sj)) ∧
    (∀ (j : Nat) (a : String) (sj : EngineState), i < j →
      tr[j]? ≠ some (EngineLabel.scan a, sj)) := by
  have hinv : EngineInv sti :=
    engineTrace_inv tr (engineInit al) htr (engineInv_init al) i _ _ hi
  obtain ⟨pre, hpre⟩ := engineTrace_step_at tr (engineInit al) htr i _ _ hi
  obtain ⟨hsigs, hwdone, hsteq⟩ := engineStep_stopReturn hpre
  have hw : sti.w = WLoc.done := by rw [hsteq]; exact hwdone
  have hsret : sti.s = SLoc.returned := by rw [hsteq]
  obtain ⟨i1, i2, i3, i4⟩ := hinv
  refine ⟨⟨hw, i1 hw, i2 (by rw [hsret]; simp), i3 (Or.inr hsret)⟩, ?_, ?_⟩
  · exact engineTrace_disc_before tr (engineInit al) htr rfl i _ _ hi rfl
  · intro j a sj hij hcon
    have hdrop := engineTrace_drop tr (engineInit al) htr i _ _ hi
    have hj2 : (tr.drop (i + 1))[j - (i + 1)]? = some (EngineLabel.scan a, sj) := by
      rw [List.getElem?_drop]
      rw [show i + 1 + (j - (i + 1)) = j by omega]
      exact hcon
    exact engineTrace_done (tr.drop (i + 1)) sti hdrop hw (j - (i + 1)) _ _ hj2 a rfl

theorem stopTraceEx_trace : EngineTrace (engineInit []) stopTraceEx := by
  unfold stopTraceEx stopStateEx engineInit
  refine EngineTrace.cons _ _ _ _ (EngineStep.wStart _ rfl) ?_
  refine EngineTrace.cons _ _ _ _ (EngineStep.sLock _ rfl) ?_
  refine EngineTrace.cons _ _ _ _ (EngineStep.sSignal _ rfl) ?_
  refine EngineTrace.cons _ _ _ _ (EngineStep.wCheckFalse _ rfl rfl) ?_
  refine EngineTrace.cons _ _ _ _ (EngineStep.sJoin _ rfl rfl) ?_
  exact EngineTrace.nil _

/-- Witness for C5 at the concrete five-step interleaving ending in
`stopReturn`. -/
theorem c5_witness :
    EngineTrace (engineInit []) stopTraceEx ∧
    stopTraceEx[4]? = some (EngineLabel.stopReturn, stopStateEx) ∧
    ((stopStateEx.w = WLoc.done ∧ stopStateEx.running = false ∧
      stopStateEx.disconnected = true ∧ stopStateEx.stopEvt = true) ∧
     (∃ j, j < 4 ∧ ∃ sj, stopTraceEx[j]? = some (EngineLabel.disconnect, sj)) ∧
     (∀ (j : Nat) (a : String) (sj : EngineState), 4 < j →
       stopTraceEx[j]? ≠ some (EngineLabel.scan a, sj))) :=
  ⟨stopTraceEx_trace, by simp [stopTraceEx],
    c5_stop_safety [] stopTraceEx stopTraceEx_trace 4 stopStateEx (by simp [stopTraceEx])⟩
